import Mathlib

/-!
# Verification of `sunflower/common.py`

A shallow embedding of the utility module `sunflower/common.py` of the
Sunflower file manager, together with theorems settling the specification
claims about it.

Modelling conventions:
* Python `str` values are lists of Unicode code points (`List Nat`),
  Python `bytes` values are lists of byte values (`List Nat`, each < 256).
* Python exceptions are modelled with `Except PyErr`.
* Python `float` arithmetic inside `format_size` is modelled with exact
  rational arithmetic (`ℚ`); the concrete inputs exercised by the claims
  (0 and 1024) are exactly representable as IEEE doubles, so the model
  and CPython agree on them.
* Functions of the environment (`os.environ`, the filesystem, the GIO
  settings schema, the spawned subprocess) take that environment as an
  explicit argument.
-/

/-- Python exception values relevant to this module. -/
inductive PyErr where
  | typeError
  | unicodeEncodeError
  | osError (errno : Nat) (msg : String)
  deriving DecidableEq, Repr

/-- A Python value that is either a number or a string: `format_size`
returns its numeric argument unchanged when the unit loop is exhausted,
and a formatted string otherwise. -/
inductive PyValue where
  | num (q : ℚ)
  | str (s : String)
  deriving DecidableEq, Repr

/-! ## Number formatting (CPython `str.format` fixed-point presentation)

`'{0:3.1f}'` / `'{0:3.0f}'`: fixed-point with the given number of decimal
places, rounded half-to-even, left-padded with spaces to a minimum field
width of 3. -/

/-- Decimal digit string of a natural number. -/
def natDigits (n : Nat) : String :=
  String.mk (Nat.toDigits 10 n)

/-- Left-pad a string with spaces to the given minimum width. -/
def padLeftSpaces (width : Nat) (s : String) : String :=
  String.mk (List.replicate (width - s.length) ' ') ++ s

/-- Left-pad a string with zeros to the given minimum width. -/
def padLeftZeros (width : Nat) (s : String) : String :=
  String.mk (List.replicate (width - s.length) '0') ++ s

/-- Round a nonnegative rational to the nearest natural number, ties to
even (the rounding CPython's fixed-point float formatting uses). -/
def roundHalfEvenNat (q : ℚ) : Nat :=
  let f : Nat := q.num.toNat / q.den
  let r : ℚ := q - (f : ℚ)
  if r < 1/2 then f
  else if 1/2 < r then f + 1
  else if f % 2 = 0 then f else f + 1

/-- CPython fixed-point formatting `'{0:w.df}'.format(q)`: `decimals`
decimal places, half-to-even rounding, space-padded to width `width`.
A negative value keeps its sign even when it rounds to zero. -/
def fmtFixed (width decimals : Nat) (q : ℚ) : String :=
  let scaled : Nat := roundHalfEvenNat (|q| * (10 : ℚ) ^ decimals)
  let body : String :=
    if decimals = 0 then natDigits scaled
    else natDigits (scaled / 10 ^ decimals) ++ "." ++
         padLeftZeros decimals (natDigits (scaled % 10 ^ decimals))
  padLeftSpaces width (if q < 0 then "-" ++ body else body)

/-- Truncation toward zero of a rational, as CPython `'%d' % q` does. -/
def truncInt (q : ℚ) : Int :=
  if q < 0 then -(((-q).num.toNat / (-q).den : Nat) : Int)
  else ((q.num.toNat / q.den : Nat) : Int)

/-- Model of `locale.format('%d', size, True)` in the default `C` locale:
decimal integer string, no grouping separators. -/
def locale_format_d (q : ℚ) : String :=
  if truncInt q < 0 then "-" ++ natDigits (truncInt q).natAbs
  else natDigits (truncInt q).natAbs

/-! ## `SizeFormat` and `format_size` -/

/-- `class SizeFormat: LOCAL = 0; SI = 1; IEC = 2`. -/
inductive SizeFormat where
  | LOCAL
  | SI
  | IEC
  deriving DecidableEq, Repr

/-- `SizeFormat.multiplier = {SI: 1000.0, IEC: 1024.0}`.  The Python dict
has no `LOCAL` key; `format_size` only reads it on the non-`LOCAL` branch,
so the `LOCAL` value below is never consulted. -/
def SizeFormat.multiplier : SizeFormat → ℚ
  | .SI => 1000
  | .IEC => 1024
  | .LOCAL => 1

/-- `SizeFormat.unit_names = {SI: [...], IEC: [...]}`.  As with
`multiplier`, the `LOCAL` entry is absent in Python and unreachable here. -/
def SizeFormat.unit_names : SizeFormat → List String
  | .SI => ["B", "kB", "MB", "GB", "TB"]
  | .IEC => ["B", "KiB", "MiB", "GiB", "TiB"]
  | .LOCAL => []

/-- The `for name in names` loop of `format_size`: on the first unit whose
threshold the running size is below, format and break (`some`); if every
unit is exhausted the loop body never assigns `result` (`none`). -/
def format_size_loop (m : ℚ) : List String → ℚ → Option String
  | [], _ => none
  | name :: rest, size =>
    if size < m then
      some (if name ≠ "B" then fmtFixed 3 1 size ++ " " ++ name
            else fmtFixed 3 0 size ++ " " ++ name)
    else format_size_loop m rest (size / m)

/-- `format_size(size, format_type, include_unit=True)`: convert size to
more human readable format.  The Python default for `include_unit` is
`True`; callers here pass it explicitly. -/
def format_size (size : ℚ) (format_type : SizeFormat) (include_unit : Bool) : PyValue :=
  match format_type with
  | .LOCAL =>
      .str (if include_unit then locale_format_d size ++ " B" else locale_format_d size)
  | _ =>
      match format_size_loop format_type.multiplier format_type.unit_names size with
      | some s => .str s
      | none => .num size

/-! ## `AccessModeFormat` and `format_mode` -/

/-- `class AccessModeFormat: OCTAL = 0; TEXTUAL = 1`. -/
inductive AccessModeFormat where
  | OCTAL
  | TEXTUAL
  deriving DecidableEq, Repr

/-- The `for i in 'rwxrwxrwx'` loop of `format_mode`: append the letter
when `mode & mask` is nonzero and `'-'` otherwise, shifting the mask right
by one each iteration. -/
def format_mode_go (mode : Nat) : List Char → Nat → List Char
  | [], _ => []
  | c :: rest, mask =>
      (if mode &&& mask ≠ 0 then c else '-') :: format_mode_go mode rest (mask >>> 1)

/-- Python `oct(n)` for a nonnegative integer. -/
def oct (n : Nat) : String :=
  "0o" ++ String.mk (Nat.toDigits 8 n)

/-- `format_mode(mode, format)`: convert mode to more human readable
format. -/
def format_mode (mode : Nat) (format : AccessModeFormat) : String :=
  match format with
  | .TEXTUAL => String.mk (format_mode_go mode "rwxrwxrwx".toList 256)
  | .OCTAL => oct mode

/-! ## `executable_exists` and the XDG directory helpers -/

/-- Python `str.split(sep)` for a one-character separator (`os.pathsep`
is `':'` on POSIX): `''.split(':') == ['']`, and adjacent separators
produce empty fields. -/
def pySplitChar (sep : Char) : List Char → List (List Char)
  | [] => [[]]
  | c :: rest =>
      let r := pySplitChar sep rest
      if c = sep then [] :: r
      else
        match r with
        | [] => [[c]]
        | g :: gs => (c :: g) :: gs

/-- Does the second character list begin with the first? -/
def charsBeginWith : List Char → List Char → Bool
  | [], _ => true
  | _ :: _, [] => false
  | a :: as, b :: bs => a == b && charsBeginWith as bs

/-- Python `str.startswith` on whole strings. -/
def strBeginsWith (s pre : String) : Bool :=
  charsBeginWith pre.toList s.toList

/-- Python `str.endswith` on whole strings. -/
def strFinishesWith (s suf : String) : Bool :=
  charsBeginWith suf.toList.reverse s.toList.reverse

/-- POSIX `os.path.join(path, component)` for the two-argument case used
in this module. -/
def os_path_join (path component : String) : String :=
  if strBeginsWith component "/" then component
  else if path = "" ∨ strFinishesWith path "/" then path ++ component
  else path ++ "/" ++ component

/-- `executable_exists(command)`: check if specified command exists in
search path.  `fs` models `os.path.exists` and `env` models
`os.environ`. -/
def executable_exists (fs : String → Bool) (env : String → Option String)
    (command : String) : Bool :=
  let default_paths := String.intercalate ":" ["/bin", "/usr/bin", "/usr/local/bin"]
  let search_paths := (pySplitChar ':' ((env "PATH").getD default_paths).toList).map String.mk
  let found_commands := search_paths.filter (fun path => fs (os_path_join path command))
  decide (0 < found_commands.length)

/-- Python `os.path.expanduser` restricted to the `'~'`-prefixed path
literals this module passes it: a leading `'~'` component is replaced by
the user's home directory. -/
def expanduser (home path : String) : String :=
  if path = "~" then home
  else if strBeginsWith path "~/" then home ++ String.mk (path.toList.drop 1)
  else path

/-- `get_cache_directory()`: get full path to cache files for current
user.  `abspath` models `os.path.abspath` and `home` the user's home
directory. -/
def get_cache_directory (env : String → Option String) (abspath : String → String)
    (home : String) : String :=
  match env "XDG_CACHE_HOME" with
  | some value => abspath value
  | none => expanduser home "~/.cache"

/-- `os.path.expanduser('~/.local', 'share')` as `get_data_directory`
calls it.  Modelled from the CPython standard library (outside this
repository): `os.path.expanduser` takes exactly one positional argument,
so a call with two raises `TypeError` before doing anything else. -/
def expanduser_two_args (_p1 _p2 : String) : Except PyErr String :=
  .error .typeError

/-- `get_data_directory()`: get full path to user data files.  The first
statement calls `os.path.expanduser` with two positional arguments; only
if that succeeded would the `XDG_DATA_HOME` branch run. -/
def get_data_directory (env : String → Option String) (abspath : String → String) :
    Except PyErr String :=
  match expanduser_two_args "~/.local" "share" with
  | .error e => .error e
  | .ok result =>
      .ok (match env "XDG_DATA_HOME" with
           | some value => abspath value
           | none => result)

/-- The GIO desktop-settings environment read by
`get_monospace_font_string`: whether the default schema source finds the
`org.gnome.desktop.interface` schema, and the `monospace-font-name`
string the settings return when it does. -/
structure DesktopEnv where
  has_gnome_interface_schema : Bool
  monospace_font_name : String

/-- `get_monospace_font_string()`: return monospace font name.  The
mutable global `MONOSPACE_FONT_STRING` (initially `None`) is threaded
explicitly: the function takes its current value and returns the result
paired with its new value. -/
def get_monospace_font_string (genv : DesktopEnv) (cached : Option String) :
    String × Option String :=
  match cached with
  | some s => (s, cached)
  | none =>
      let value :=
        if genv.has_gnome_interface_schema then genv.monospace_font_name
        else "monospace"
      (value, some value)

/-! ## `is_gui_app` -/

/-- Does the second byte list begin with the first? -/
def bytesBeginWith : List Nat → List Nat → Bool
  | [], _ => true
  | _ :: _, [] => false
  | a :: as, b :: bs => a == b && bytesBeginWith as bs

/-- Python `needle in haystack` on `bytes`: contiguous subsequence
test. -/
def bytesContains (needle : List Nat) : List Nat → Bool
  | [] => bytesBeginWith needle []
  | b :: t => bytesBeginWith needle (b :: t) || bytesContains needle t

/-- The byte values of an ASCII literal such as `b'libX11.so'`. -/
def asciiBytes (s : String) : List Nat :=
  s.toList.map Char.toNat

/-- `is_gui_app(command)`: checks if command uses graphical user
interfaces.  The subprocess interaction
(`Popen([command], env=..., stdout=PIPE).communicate()`) is modelled by
its outcome: either the `OSError` the spawn raised — which the `except`
clause re-raises — or the `(stdout, stderr)` byte strings it produced. -/
def is_gui_app (popen_result : Except PyErr (List Nat × List Nat)) : Except PyErr Bool :=
  match popen_result with
  | .error e => .error e
  | .ok output =>
      let libraries := [asciiBytes "libX11.so", asciiBytes "libvlc.so",
                        asciiBytes "libwayland-client.so"]
      let matching := libraries.filter (fun library => bytesContains library output.1)
      .ok (decide (0 < matching.length))

/-! ## Filename encoding (`encode_file_name` / `decode_file_name`)

CPython's UTF-8 codec, translated at the code-point level: the encoder
with the `'surrogateescape'` error handler, and the decoder with the
`'replace'` error handler (one `U+FFFD` per maximal subpart of an
ill-formed sequence, the W3C rule CPython follows). -/

/-- Standard UTF-8 encoding of one non-surrogate code point
`c < 0x110000`. -/
def utf8EncodeChar (c : Nat) : List Nat :=
  if c < 0x80 then [c]
  else if c < 0x800 then [0xC0 + c / 0x40, 0x80 + c % 0x40]
  else if c < 0x10000 then
    [0xE0 + c / 0x1000, 0x80 + c / 0x40 % 0x40, 0x80 + c % 0x40]
  else
    [0xF0 + c / 0x40000, 0x80 + c / 0x1000 % 0x40,
     0x80 + c / 0x40 % 0x40, 0x80 + c % 0x40]

/-- One code point of `str.encode('utf-8', 'surrogateescape')`: the
escape code points `U+DC80`–`U+DCFF` map back to the single byte they
stand for, any other surrogate cannot be encoded and raises, and
everything else is ordinary UTF-8. -/
def encodeCharSurrogateescape (c : Nat) : Except PyErr (List Nat) :=
  if 0xD800 ≤ c ∧ c < 0xE000 then
    if 0xDC80 ≤ c ∧ c < 0xDD00 then .ok [c - 0xDC00]
    else .error .unicodeEncodeError
  else .ok (utf8EncodeChar c)

/-- `encode_file_name(file_name)`: encode filename to bytes via
`str(file_name).encode('utf-8', 'surrogateescape')` (for a `str`
argument `str()` is the identity, so the input is the code-point
list). -/
def encode_file_name : List Nat → Except PyErr (List Nat)
  | [] => .ok []
  | c :: rest =>
      match encodeCharSurrogateescape c with
      | .error e => .error e
      | .ok bs =>
          match encode_file_name rest with
          | .error e => .error e
          | .ok tail => .ok (bs ++ tail)

/-- One step of CPython's UTF-8 decoder: the code point decoded at the
head of the byte list (`0xFFFD` on an ill-formed sequence, as the
`'replace'` handler emits) and the number of bytes consumed (1–4; on an
error, the length of the maximal valid prefix of the sequence, at least
1). -/
def utf8Step : List Nat → Nat × Nat
  | [] => (0xFFFD, 1)
  | b0 :: rest =>
    if b0 < 0x80 then (b0, 1)
    else if b0 < 0xC2 then (0xFFFD, 1)
    else if b0 < 0xE0 then
      match rest with
      | b1 :: _ =>
          if 0x80 ≤ b1 ∧ b1 < 0xC0 then ((b0 - 0xC0) * 0x40 + (b1 - 0x80), 2)
          else (0xFFFD, 1)
      | [] => (0xFFFD, 1)
    else if b0 < 0xF0 then
      match rest with
      | b1 :: rest2 =>
          if (if b0 = 0xE0 then 0xA0 ≤ b1 ∧ b1 < 0xC0
              else if b0 = 0xED then 0x80 ≤ b1 ∧ b1 < 0xA0
              else 0x80 ≤ b1 ∧ b1 < 0xC0) then
            match rest2 with
            | b2 :: _ =>
                if 0x80 ≤ b2 ∧ b2 < 0xC0 then
                  ((b0 - 0xE0) * 0x1000 + (b1 - 0x80) * 0x40 + (b2 - 0x80), 3)
                else (0xFFFD, 2)
            | [] => (0xFFFD, 2)
          else (0xFFFD, 1)
      | [] => (0xFFFD, 1)
    else if b0 < 0xF5 then
      match rest with
      | b1 :: rest2 =>
          if (if b0 = 0xF0 then 0x90 ≤ b1 ∧ b1 < 0xC0
              else if b0 = 0xF4 then 0x80 ≤ b1 ∧ b1 < 0x90
              else 0x80 ≤ b1 ∧ b1 < 0xC0) then
            match rest2 with
            | b2 :: rest3 =>
                if 0x80 ≤ b2 ∧ b2 < 0xC0 then
                  match rest3 with
                  | b3 :: _ =>
                      if 0x80 ≤ b3 ∧ b3 < 0xC0 then
                        ((b0 - 0xF0) * 0x40000 + (b1 - 0x80) * 0x1000 +
                         (b2 - 0x80) * 0x40 + (b3 - 0x80), 4)
                      else (0xFFFD, 3)
                  | [] => (0xFFFD, 3)
                else (0xFFFD, 2)
            | [] => (0xFFFD, 2)
          else (0xFFFD, 1)
      | [] => (0xFFFD, 1)
    else (0xFFFD, 1)

/-- `bytes.decode('utf-8', 'replace')`: decode step by step, emitting
one code point per step. -/
def utf8DecodeReplace : List Nat → List Nat
  | [] => []
  | b0 :: rest =>
      (utf8Step (b0 :: rest)).1 ::
        utf8DecodeReplace (rest.drop ((utf8Step (b0 :: rest)).2 - 1))
termination_by l => l.length
decreasing_by
  simp only [List.length_drop, List.length_cons]
  omega

/-- A Python value that is either a `str` (code points) or a `bytes`
(byte values): `decode_file_name` dispatches on `isinstance(file_name,
bytes)`. -/
inductive PyStrOrBytes where
  | str (s : List Nat)
  | bytes (b : List Nat)

/-- `decode_file_name(file_name)`: for `bytes`, decode UTF-8 with the
`'replace'` handler; for `str`, the Python code returns
`decode_file_name(encode_file_name(file_name))`, a recursion that always
lands in the `bytes` branch on the next call and is therefore inlined
here.  An encoding error propagates. -/
def decode_file_name : PyStrOrBytes → Except PyErr (List Nat)
  | .bytes b => .ok (utf8DecodeReplace b)
  | .str s =>
      match encode_file_name s with
      | .error e => .error e
      | .ok bs => .ok (utf8DecodeReplace bs)

/-! ## Theorems -/

/-- A filtered list is nonempty exactly when some element of the original
list satisfies the predicate. -/
theorem length_filter_pos_iff {α : Type} (l : List α) (f : α → Bool) :
    0 < (l.filter f).length ↔ ∃ x ∈ l, f x = true := by
  induction l with
  | nil => simp
  | cons a t ih => by_cases h : f a <;> simp [List.filter_cons, h, ih]

/-- `bytesBeginWith needle hay` holds exactly when `hay` extends
`needle`. -/
theorem bytesBeginWith_iff (needle hay : List Nat) :
    bytesBeginWith needle hay = true ↔ ∃ t, hay = needle ++ t := by
  induction needle generalizing hay with
  | nil => simp [bytesBeginWith]
  | cons a as ih =>
      cases hay with
      | nil => simp [bytesBeginWith]
      | cons b bs =>
          simp only [bytesBeginWith, Bool.and_eq_true, beq_iff_eq, ih,
            List.cons_append, List.cons.injEq]
          constructor
          · rintro ⟨rfl, t, rfl⟩
            exact ⟨t, rfl, rfl⟩
          · rintro ⟨t, rfl, rfl⟩
            exact ⟨rfl, t, rfl⟩

/-- `bytesContains needle hay` holds exactly when `needle` occurs as a
contiguous subsequence of `hay`. -/
theorem bytesContains_iff (needle hay : List Nat) :
    bytesContains needle hay = true ↔ ∃ pre post, hay = pre ++ needle ++ post := by
  induction hay with
  | nil =>
      cases needle with
      | nil => simp [bytesContains, bytesBeginWith]
      | cons a as =>
          simp [bytesContains, bytesBeginWith, eq_comm (a := ([] : List Nat))]
  | cons b t ih =>
      simp only [bytesContains, Bool.or_eq_true, ih]
      constructor
      · rintro (h | ⟨pre, post, rfl⟩)
        · obtain ⟨post, hp⟩ := (bytesBeginWith_iff _ _).1 h
          exact ⟨[], post, by simpa using hp⟩
        · exact ⟨b :: pre, post, rfl⟩
      · rintro ⟨pre, post, hp⟩
        cases pre with
        | nil =>
            left
            exact (bytesBeginWith_iff _ _).2 ⟨post, by simpa using hp⟩
        | cons p ps =>
            right
            obtain ⟨rfl, hp'⟩ := List.cons.injEq .. ▸ hp
            exact ⟨ps, post, by simpa using hp'⟩

/-- The encoder never produces the empty byte sequence for a code
point. -/
theorem utf8EncodeChar_ne_nil (c : Nat) : utf8EncodeChar c ≠ [] := by
  unfold utf8EncodeChar
  split_ifs <;> simp

/-- Decoding one step of a well-formed encoding: at the head of
`utf8EncodeChar c ++ rest` the decoder reads back exactly `c`, consuming
exactly the encoding's bytes. -/
theorem utf8Step_encode (c : Nat) (hc : c < 0x110000)
    (hs : ¬(0xD800 ≤ c ∧ c < 0xE000)) (rest : List Nat) :
    utf8Step (utf8EncodeChar c ++ rest) = (c, (utf8EncodeChar c).length) := by
  by_cases h1 : c < 0x80
  · have he : utf8EncodeChar c = [c] := by rw [utf8EncodeChar, if_pos h1]
    rw [he]
    simp [List.cons_append, List.nil_append, utf8Step, h1, if_true,
      ite_true, List.length_cons, List.length_nil]
  · by_cases h2 : c < 0x800
    · have he : utf8EncodeChar c = [0xC0 + c / 0x40, 0x80 + c % 0x40] := by
        rw [utf8EncodeChar, if_neg h1, if_pos h2]
      have d1 : ¬(0xC0 + c / 0x40 < 0x80) := by omega
      have d2 : ¬(0xC0 + c / 0x40 < 0xC2) := by omega
      have d3 : 0xC0 + c / 0x40 < 0xE0 := by omega
      have d4 : 0x80 ≤ 0x80 + c % 0x40 := by omega
      have d5 : 0x80 + c % 0x40 < 0xC0 := by omega
      rw [he]
      simp [List.cons_append, List.nil_append, utf8Step, d1, d2, d3, d4, d5,
        if_true, if_false, ite_true, ite_false, and_self, true_and, and_true,
        List.length_cons, List.length_nil, Prod.mk.injEq]
      omega
    · by_cases h3 : c < 0x10000
      · have he : utf8EncodeChar c =
            [0xE0 + c / 0x1000, 0x80 + c / 0x40 % 0x40, 0x80 + c % 0x40] := by
          rw [utf8EncodeChar, if_neg h1, if_neg h2, if_pos h3]
        have d1 : ¬(0xE0 + c / 0x1000 < 0x80) := by omega
        have d2 : ¬(0xE0 + c / 0x1000 < 0xC2) := by omega
        have d3 : ¬(0xE0 + c / 0x1000 < 0xE0) := by omega
        have d4 : 0xE0 + c / 0x1000 < 0xF0 := by omega
        have d7 : 0x80 ≤ 0x80 + c % 0x40 := by omega
        have d8 : 0x80 + c % 0x40 < 0xC0 := by omega
        rw [he]
        by_cases hE : c < 0x1000
        · have e1 : 0xE0 + c / 0x1000 = 0xE0 := by omega
          have e2 : 0xA0 ≤ 0x80 + c / 0x40 % 0x40 := by omega
          have e3 : 0x80 + c / 0x40 % 0x40 < 0xC0 := by omega
          simp [List.cons_append, List.nil_append, utf8Step, d1, d2, d3, d4,
            e1, e2, e3, d7, d8, if_true, if_false, ite_true, ite_false, and_self,
            true_and, and_true, List.length_cons, List.length_nil, Prod.mk.injEq]
          omega
        · by_cases hD : 0xD000 ≤ c ∧ c < 0xE000
          · have hD8 : c < 0xD800 := by omega
            have e1 : ¬(0xE0 + c / 0x1000 = 0xE0) := by omega
            have e2 : 0xE0 + c / 0x1000 = 0xED := by omega
            have e3 : 0x80 ≤ 0x80 + c / 0x40 % 0x40 := by omega
            have e4 : 0x80 + c / 0x40 % 0x40 < 0xA0 := by omega
            simp [List.cons_append, List.nil_append, utf8Step, d1, d2, d3, d4,
              e1, e2, e3, e4, d7, d8, if_true, if_false, ite_true, ite_false,
              and_self, true_and, and_true, List.length_cons, List.length_nil,
              Prod.mk.injEq]
            omega
          · have e1 : ¬(0xE0 + c / 0x1000 = 0xE0) := by omega
            have e2 : ¬(0xE0 + c / 0x1000 = 0xED) := by omega
            have e3 : 0x80 ≤ 0x80 + c / 0x40 % 0x40 := by omega
            have e4 : 0x80 + c / 0x40 % 0x40 < 0xC0 := by omega
            simp [List.cons_append, List.nil_append, utf8Step, d1, d2, d3, d4,
              e1, e2, e3, e4, d7, d8, if_true, if_false, ite_true, ite_false,
              and_self, true_and, and_true, List.length_cons, List.length_nil,
              Prod.mk.injEq]
            omega
      · have he : utf8EncodeChar c =
            [0xF0 + c / 0x40000, 0x80 + c / 0x1000 % 0x40,
             0x80 + c / 0x40 % 0x40, 0x80 + c % 0x40] := by
          rw [utf8EncodeChar, if_neg h1, if_neg h2, if_neg h3]
        have d1 : ¬(0xF0 + c / 0x40000 < 0x80) := by omega
        have d2 : ¬(0xF0 + c / 0x40000 < 0xC2) := by omega
        have d3 : ¬(0xF0 + c / 0x40000 < 0xE0) := by omega
        have d4 : ¬(0xF0 + c / 0x40000 < 0xF0) := by omega
        have d5 : 0xF0 + c / 0x40000 < 0xF5 := by omega
        have d6 : 0x80 ≤ 0x80 + c / 0x40 % 0x40 := by omega
        have d7 : 0x80 + c / 0x40 % 0x40 < 0xC0 := by omega
        have d8 : 0x80 ≤ 0x80 + c % 0x40 := by omega
        have d9 : 0x80 + c % 0x40 < 0xC0 := by omega
        rw [he]
        by_cases hF : c < 0x40000
        · have e1 : 0xF0 + c / 0x40000 = 0xF0 := by omega
          have e2 : 0x90 ≤ 0x80 + c / 0x1000 % 0x40 := by omega
          have e3 : 0x80 + c / 0x1000 % 0x40 < 0xC0 := by omega
          simp [List.cons_append, List.nil_append, utf8Step, d1, d2, d3, d4,
            d5, d6, d7, d8, d9, e1, e2, e3, if_true, if_false, ite_true,
            ite_false, and_self, true_and, and_true, List.length_cons,
            List.length_nil, Prod.mk.injEq]
          omega
        · by_cases hG : c < 0x100000
          · have e1 : ¬(0xF0 + c / 0x40000 = 0xF0) := by omega
            have e2 : ¬(0xF0 + c / 0x40000 = 0xF4) := by omega
            have e3 : 0x80 ≤ 0x80 + c / 0x1000 % 0x40 := by omega
            have e4 : 0x80 + c / 0x1000 % 0x40 < 0xC0 := by omega
            simp [List.cons_append, List.nil_append, utf8Step, d1, d2, d3, d4,
              d5, d6, d7, d8, d9, e1, e2, e3, e4, if_true, if_false, ite_true,
              ite_false, and_self, true_and, and_true, List.length_cons,
              List.length_nil, Prod.mk.injEq]
            omega
          · have e1 : ¬(0xF0 + c / 0x40000 = 0xF0) := by omega
            have e2 : 0xF0 + c / 0x40000 = 0xF4 := by omega
            have e3 : 0x80 ≤ 0x80 + c / 0x1000 % 0x40 := by omega
            have e4 : 0x80 + c / 0x1000 % 0x40 < 0x90 := by omega
            simp [List.cons_append, List.nil_append, utf8Step, d1, d2, d3, d4,
              d5, d6, d7, d8, d9, e1, e2, e3, e4, if_true, if_false, ite_true,
              ite_false, and_self, true_and, and_true, List.length_cons,
              List.length_nil, Prod.mk.injEq]
            omega

/-- Unfolding equation for `utf8DecodeReplace` on a nonempty byte
list. -/
theorem utf8DecodeReplace_cons (b : Nat) (l : List Nat) :
    utf8DecodeReplace (b :: l) =
      (utf8Step (b :: l)).1 ::
        utf8DecodeReplace (l.drop ((utf8Step (b :: l)).2 - 1)) := by
  rw [utf8DecodeReplace]

/-- Decoding a well-formed encoding at the head of a byte stream yields
the encoded code point and continues with the remainder. -/
theorem utf8DecodeReplace_encode (c : Nat) (hc : c < 0x110000)
    (hs : ¬(0xD800 ≤ c ∧ c < 0xE000)) (rest : List Nat) :
    utf8DecodeReplace (utf8EncodeChar c ++ rest) = c :: utf8DecodeReplace rest := by
  have hstep := utf8Step_encode c hc hs rest
  obtain ⟨b, l', henc⟩ : ∃ b l', utf8EncodeChar c = b :: l' := by
    rcases h : utf8EncodeChar c with _ | ⟨b, l'⟩
    · exact absurd h (utf8EncodeChar_ne_nil c)
    · exact ⟨b, l', rfl⟩
  rw [henc, List.cons_append] at hstep
  rw [henc, List.cons_append, utf8DecodeReplace_cons, hstep]
  simp [List.drop_left]

/-- A valid code-point list encodes successfully, and decoding the
resulting bytes in front of any byte stream recovers the list. -/
theorem encode_file_name_valid (x : List Nat)
    (hx : ∀ c ∈ x, c < 0x110000 ∧ ¬(0xD800 ≤ c ∧ c < 0xE000)) :
    ∃ bs, encode_file_name x = .ok bs ∧
      ∀ rest, utf8DecodeReplace (bs ++ rest) = x ++ utf8DecodeReplace rest := by
  induction x with
  | nil => exact ⟨[], rfl, fun rest => by simp⟩
  | cons c t ih =>
      obtain ⟨hc, hsur⟩ := hx c (List.mem_cons_self c t)
      obtain ⟨bs, hbs, hdec⟩ := ih (fun d hd => hx d (List.mem_cons_of_mem c hd))
      have henc : encodeCharSurrogateescape c = .ok (utf8EncodeChar c) := by
        rw [encodeCharSurrogateescape, if_neg hsur]
      refine ⟨utf8EncodeChar c ++ bs, ?_, fun rest => ?_⟩
      · simp [encode_file_name, henc, hbs]
      · rw [List.append_assoc, utf8DecodeReplace_encode c hc hsur (bs ++ rest),
          hdec rest]
        simp

/-- C2: on a valid UTF-8 `str` input (no surrogate code points) the
composition `decode_file_name(encode_file_name(x))` — which is exactly
what `decode_file_name` computes on a `str` — returns `x` itself, and is
therefore idempotent: applying it to its own output changes nothing. -/
theorem decode_encode_file_name_idempotent (x : List Nat)
    (hx : ∀ c ∈ x, c < 0x110000 ∧ ¬(0xD800 ≤ c ∧ c < 0xE000)) :
    decode_file_name (.str x) = .ok x ∧
    ∀ y, decode_file_name (.str x) = .ok y →
      decode_file_name (.str y) = .ok y := by
  obtain ⟨bs, hbs, hdec⟩ := encode_file_name_valid x hx
  have hnil : utf8DecodeReplace [] = [] := by rw [utf8DecodeReplace]
  have hb : utf8DecodeReplace bs = x := by
    have h := hdec []
    rwa [List.append_nil, hnil, List.append_nil] at h
  have h1 : decode_file_name (.str x) = .ok x := by
    simp [decode_file_name, hbs, hb]
  refine ⟨h1, fun y hy => ?_⟩
  rw [h1] at hy
  injection hy with hxy
  subst hxy
  exact h1

/-- Witness for C2 at the code points of `"Aé€𐍈"` (1-, 2-, 3- and
4-byte UTF-8 sequences). -/
theorem decode_encode_file_name_idempotent_witness :
    decode_file_name (.str [0x41, 0xE9, 0x20AC, 0x10348]) =
      .ok [0x41, 0xE9, 0x20AC, 0x10348] :=
  (decode_encode_file_name_idempotent [0x41, 0xE9, 0x20AC, 0x10348] (by decide)).1

/-- C6: when the spawn inside `is_gui_app` raises an `OSError`, the
function re-raises that same error object unchanged; otherwise it
returns true exactly when one of the known library name substrings
(`libX11.so`, `libvlc.so`, `libwayland-client.so`) occurs in the
subprocess's standard-output bytes. -/
theorem is_gui_app_spec :
    (∀ e : PyErr, is_gui_app (.error e) = .error e) ∧
    (∀ out : List Nat × List Nat,
       is_gui_app (.ok out) = .ok true ↔
         (∃ pre post, out.1 = pre ++ asciiBytes "libX11.so" ++ post) ∨
         (∃ pre post, out.1 = pre ++ asciiBytes "libvlc.so" ++ post) ∨
         (∃ pre post, out.1 = pre ++ asciiBytes "libwayland-client.so" ++ post)) := by
  refine ⟨fun e => rfl, fun out => ?_⟩
  simp only [is_gui_app, Except.ok.injEq, decide_eq_true_iff,
    length_filter_pos_iff, List.mem_cons, List.not_mem_nil, or_false,
    bytesContains_iff]
  constructor
  · rintro ⟨x, (rfl | rfl | rfl), hx⟩
    · exact Or.inl hx
    · exact Or.inr (Or.inl hx)
    · exact Or.inr (Or.inr hx)
  · rintro (h | h | h)
    · exact ⟨_, Or.inl rfl, h⟩
    · exact ⟨_, Or.inr (Or.inl rfl), h⟩
    · exact ⟨_, Or.inr (Or.inr rfl), h⟩

/-- When the running size stays at or above `m` through every unit name
(which happens exactly when `size ≥ m ^ names.length`), the loop never
assigns a result. -/
theorem format_size_loop_exhausted (m : ℚ) (hm : 1 < m) (names : List String)
    (size : ℚ) (h : m ^ names.length ≤ size) :
    format_size_loop m names size = none := by
  induction names generalizing size with
  | nil => rfl
  | cons name rest ih =>
      have hm0 : (0 : ℚ) < m := lt_trans one_pos hm
      have h1 : ¬ size < m := by
        push_neg
        calc m ≤ m ^ (rest.length + 1) := le_self_pow₀ hm.le (Nat.succ_ne_zero _)
          _ ≤ size := h
      rw [format_size_loop, if_neg h1]
      apply ih
      rw [le_div_iff₀ hm0, ← pow_succ]
      exact h

/-- C1 (counterexample): `format_size(0, SizeFormat.IEC)` does not return
the string `"0 B"`: the `'{0:3.0f} {1}'` template pads the number to a
minimum field width of 3, so the result starts with two spaces. -/
theorem format_size_zero_iec_ne_spec :
    format_size 0 .IEC true ≠ .str "0 B" := by
  have h : format_size 0 .IEC true = .str "  0 B" := by with_unfolding_all rfl
  rw [h]
  decide

/-- C1 (amended): `format_size(0, SizeFormat.IEC)` with the default
`include_unit` returns exactly the string `"  0 B"` (the value `0`
space-padded to width 3 by the `'{0:3.0f}'` format, then `" B"`). -/
theorem format_size_zero_iec :
    format_size 0 .IEC true = .str "  0 B" := by
  with_unfolding_all rfl

/-- C5: `format_size(1024, SizeFormat.IEC)` with the default
`include_unit` returns exactly the string `"1.0 KiB"`. -/
theorem format_size_kib :
    format_size 1024 .IEC true = .str "1.0 KiB" := by
  with_unfolding_all rfl

/-- C10: for `SizeFormat.SI` or `SizeFormat.IEC`, whenever
`size ≥ multiplier ^ 5` the five-entry unit table is exhausted without
`result` ever being assigned, so `format_size` returns its original
numeric argument unchanged rather than a formatted string. -/
theorem format_size_huge_returns_number (size : ℚ) (ft : SizeFormat)
    (hft : ft = .SI ∨ ft = .IEC) (h : ft.multiplier ^ 5 ≤ size)
    (include_unit : Bool) :
    format_size size ft include_unit = .num size := by
  rcases hft with rfl | rfl
  · have hl : format_size_loop (1000 : ℚ) ["B", "kB", "MB", "GB", "TB"] size = none :=
      format_size_loop_exhausted 1000 (by norm_num) _ size
        (by simpa [SizeFormat.multiplier] using h)
    simp [format_size, SizeFormat.multiplier, SizeFormat.unit_names, hl]
  · have hl : format_size_loop (1024 : ℚ) ["B", "KiB", "MiB", "GiB", "TiB"] size = none :=
      format_size_loop_exhausted 1024 (by norm_num) _ size
        (by simpa [SizeFormat.multiplier] using h)
    simp [format_size, SizeFormat.multiplier, SizeFormat.unit_names, hl]

/-- Witness for C10 at the concrete input `size = 1000 ^ 5`,
`format_type = SI`. -/
theorem format_size_huge_returns_number_witness :
    format_size (1000 ^ 5) .SI true = .num (1000 ^ 5) :=
  format_size_huge_returns_number (1000 ^ 5) .SI (Or.inl rfl)
    (by norm_num [SizeFormat.multiplier]) true

/-- C4: `format_mode(0o755, AccessModeFormat.TEXTUAL)` is exactly
`"rwxr-xr-x"`, and in general the textual format yields nine characters
where position `i` shows the corresponding letter of `'rwxrwxrwx'` when
the permission bit `256 >> i` is set in `mode`, and `'-'` otherwise. -/
theorem format_mode_textual_spec :
    format_mode 0o755 .TEXTUAL = "rwxr-xr-x" ∧
    ∀ (mode i : Nat), i < 9 →
      (format_mode mode .TEXTUAL).toList.getD i ' ' =
        (if mode &&& (256 >>> i) ≠ 0 then "rwxrwxrwx".toList.getD i ' ' else '-') := by
  constructor
  · decide
  · intro mode i hi
    interval_cases i <;> simp [format_mode, format_mode_go, String.toList]

/-- Witness for C4's general clause at `mode = 0o644`, `i = 1`. -/
theorem format_mode_textual_spec_witness :
    (format_mode 0o644 .TEXTUAL).toList.getD 1 ' ' =
      (if 0o644 &&& (256 >>> 1) ≠ 0 then "rwxrwxrwx".toList.getD 1 ' ' else '-') :=
  format_mode_textual_spec.2 0o644 1 (by decide)

/-- C3: `executable_exists(command)` returns true exactly when some
directory of the PATH search paths (the split value of `PATH` when set,
the built-in `/bin`, `/usr/bin`, `/usr/local/bin` otherwise) contains an
entry named `command`, where containment is `os.path.exists` of the
joined path. -/
theorem executable_exists_iff (fs : String → Bool) (env : String → Option String)
    (command : String) :
    executable_exists fs env command = true ↔
      ∃ path ∈ (match env "PATH" with
                 | some p => (pySplitChar ':' p.toList).map String.mk
                 | none => ["/bin", "/usr/bin", "/usr/local/bin"]),
        fs (os_path_join path command) = true := by
  unfold executable_exists
  cases h : env "PATH" with
  | none =>
      have hd : (pySplitChar ':'
          (String.intercalate ":" ["/bin", "/usr/bin", "/usr/local/bin"]).toList).map
            String.mk = ["/bin", "/usr/bin", "/usr/local/bin"] := by decide
      simp only [h, Option.getD_none, hd, decide_eq_true_iff, length_filter_pos_iff]
  | some p =>
      simp only [h, Option.getD_some, decide_eq_true_iff, length_filter_pos_iff]

/-- C7: `get_cache_directory` returns the absolute path of the
`XDG_CACHE_HOME` environment value when that variable is set, and
otherwise falls back to `'~/.cache'` expanded to the user's home
directory.  The function is total: no branch raises. -/
theorem get_cache_directory_spec (env : String → Option String)
    (abspath : String → String) (home : String) :
    (∀ value, env "XDG_CACHE_HOME" = some value →
        get_cache_directory env abspath home = abspath value) ∧
    (env "XDG_CACHE_HOME" = none →
        get_cache_directory env abspath home = home ++ "/.cache") := by
  constructor
  · intro value hv
    simp [get_cache_directory, hv]
  · intro hn
    have h1 : ("~/.cache" : String) ≠ "~" := by decide
    have h2 : strBeginsWith "~/.cache" "~/" = true := by decide
    have h3 : String.mk (("~/.cache" : String).toList.drop 1) = "/.cache" := by decide
    simp [get_cache_directory, hn, expanduser, h1, h2, h3]

/-- Witness for C7: one environment with `XDG_CACHE_HOME` set, one
without. -/
theorem get_cache_directory_spec_witness :
    get_cache_directory (fun k => if k = "XDG_CACHE_HOME" then some "/var/cache" else none)
        id "/home/user" = "/var/cache" ∧
    get_cache_directory (fun _ => none) id "/home/user" = "/home/user/.cache" :=
  ⟨(get_cache_directory_spec _ id "/home/user").1 "/var/cache" (by decide),
   (get_cache_directory_spec _ id "/home/user").2 rfl⟩

/-- C9: every call to `get_data_directory` raises `TypeError`:
`os.path.expanduser` is called with two positional arguments before the
`XDG_DATA_HOME` branch is consulted, so that branch is unreachable and
no path is ever returned. -/
theorem get_data_directory_raises (env : String → Option String)
    (abspath : String → String) :
    get_data_directory env abspath = .error .typeError := rfl

/-- C8: `get_monospace_font_string` memoizes.  On a `None` cache the
first call stores the computed font (the schema's font name when the
schema is available, the hardcoded `'monospace'` otherwise); a second
call — even against a different desktop environment — returns the same
cached string and leaves the cache unchanged, showing the schema is not
queried again. -/
theorem get_monospace_font_string_memoized (genv1 genv2 : DesktopEnv) :
    (get_monospace_font_string genv1 none).1 =
      (if genv1.has_gnome_interface_schema then genv1.monospace_font_name
       else "monospace") ∧
    (get_monospace_font_string genv1 none).2 =
      some (get_monospace_font_string genv1 none).1 ∧
    get_monospace_font_string genv2 (get_monospace_font_string genv1 none).2 =
      get_monospace_font_string genv1 none := by
  by_cases h : genv1.has_gnome_interface_schema <;>
    simp [get_monospace_font_string, h]
